import Mathlib

/-!
Verification development for KeepToOrg (src/keepToOrgJson.py).

The Python program converts a Google Keep JSON export into Emacs Org files.
This file gives a shallow embedding of its data model and operations:
strings are Lean `String`s, the in-place mutation of `Note.tags` performed
by `Note.toOrgString` is made explicit by returning the updated note, the
grouping dictionary (a Python `dict`, which preserves insertion order) is
an insertion-ordered association list, and the fallible parsing section of
`main` is a function into `Except`.
-/

namespace KeepToOrg

/-! ## Python string primitives used by the program -/

/-- Scanner for Python `str.replace`: replace every non-overlapping
occurrence of `pat` by `rep`, scanning left to right.  The first argument
counts input characters that belong to an occurrence already replaced and
must still be dropped; the recursion is structural in the input list.
(The program never calls `replace` with an empty pattern; on an empty
pattern this model leaves the string unchanged.) -/
def replaceAux (pat rep : List Char) : Nat → List Char → List Char
  | _, [] => []
  | skip + 1, _ :: rest => replaceAux pat rep skip rest
  | 0, c :: rest =>
    if pat ≠ [] ∧ pat.isPrefixOf (c :: rest) then
      rep ++ replaceAux pat rep (pat.length - 1) rest
    else
      c :: replaceAux pat rep 0 rest

/-- Models Python `str.replace(pat, rep)` (all occurrences). -/
def pyReplace (s pat rep : String) : String :=
  String.mk (replaceAux pat.data rep.data 0 s.data)

/-- Python whitespace characters recognised by `str.strip()`. -/
def isPySpace (c : Char) : Bool :=
  c = ' ' || c = '\t' || c = '\n' || c = '\r' || c = '\x0b' || c = '\x0c'

/-- Models Python `str.strip()`: remove leading and trailing whitespace. -/
def pyStrip (s : String) : String :=
  String.mk (((s.data.dropWhile isPySpace).reverse.dropWhile isPySpace).reverse)

/-- Models Python `sep.join(parts)`. -/
def pyJoin (sep : String) : List String → String
  | [] => ""
  | [p] => p
  | p :: rest => p ++ sep ++ pyJoin sep rest

/-- Models Python `str.find` for a single-character needle, on the
character list of the string: index of the first occurrence, if any.
(`str.find` itself returns `-1` when absent; the program only compares
the result against `0`, so an `Option` is a faithful rendering.) -/
def pyFindChar (c : Char) : List Char → Option Nat
  | [] => none
  | x :: rest =>
    if x = c then some 0 else (pyFindChar c rest).map (fun i => i + 1)

/-- Models the Python standard library function `html.unescape`, restricted
to the four basic named character references.  The program relies only on
unescaping being applied uniformly to title, body and tags, not on the full
HTML5 entity table, so this fixed table is enough for every question asked
of the embedding. -/
def htmlUnescape (s : String) : String :=
  [("&quot;", "\""), ("&lt;", "<"), ("&gt;", ">"), ("&amp;", "&")].foldl
    (fun acc p => pyReplace acc p.1 p.2) s

/-! ## Calendar model (Python `datetime.datetime`)

A `datetime` value is represented by its calendar fields.  Comparison of
Python `datetime` objects is lexicographic on these fields. -/

structure DateTime where
  year : Nat
  month : Nat
  day : Nat
  hour : Nat
  minute : Nat
  second : Nat
  microsecond : Nat
deriving DecidableEq, Repr

/-- Lexicographic less-or-equal on lists of naturals (both lists have the
same length wherever it is used below). -/
def natLexLe : List Nat → List Nat → Bool
  | [], _ => true
  | _ :: _, [] => false
  | a :: as, b :: bs => if a ≠ b then decide (a < b) else natLexLe as bs

theorem natLexLe_refl : ∀ (xs : List Nat), natLexLe xs xs = true
  | [] => rfl
  | _ :: as => by simp [natLexLe, natLexLe_refl as]

theorem natLexLe_trans : ∀ {xs ys zs : List Nat},
    natLexLe xs ys = true → natLexLe ys zs = true → natLexLe xs zs = true
  | [], _, _, _, _ => rfl
  | _ :: _, [], _, h, _ => by simp [natLexLe] at h
  | _ :: _, _ :: _, [], _, h => by simp [natLexLe] at h
  | a :: as, b :: bs, c :: cs, hab, hbc => by
    simp only [natLexLe, ne_eq, ite_not] at hab hbc ⊢
    by_cases h1 : a = b
    · subst h1
      by_cases h2 : a = c
      · subst h2
        simp only [if_pos rfl] at hab hbc ⊢
        exact natLexLe_trans hab hbc
      · simp only [if_neg h2] at hbc ⊢
        exact hbc
    · by_cases h2 : b = c
      · subst h2
        simp only [if_neg h1] at hab ⊢
        exact hab
      · simp only [if_neg h1] at hab
        simp only [if_neg h2] at hbc
        simp only [decide_eq_true_eq] at hab hbc
        have hac : ¬a = c := by omega
        simp only [if_neg hac, decide_eq_true_eq]
        omega

theorem natLexLe_total : ∀ (xs ys : List Nat),
    (natLexLe xs ys || natLexLe ys xs) = true
  | [], _ => by simp [natLexLe]
  | _ :: _, [] => by simp [natLexLe]
  | a :: as, b :: bs => by
    simp only [natLexLe, ne_eq, ite_not, Bool.or_eq_true]
    by_cases h : a = b
    · subst h
      simp only [if_pos rfl]
      have := natLexLe_total as bs
      simp only [Bool.or_eq_true] at this
      exact this
    · have h' : ¬b = a := fun hba => h hba.symm
      simp only [if_neg h, if_neg h', decide_eq_true_eq]
      omega

/-- The field tuple of a `datetime`, most significant first. -/
def DateTime.fields (d : DateTime) : List Nat :=
  [d.year, d.month, d.day, d.hour, d.minute, d.second, d.microsecond]

/-- Order on `datetime` values: Python compares them lexicographically on
their calendar fields.  This is what
`sorted(group, key=lambda note: note.date)` sorts by. -/
def DateTime.le (a b : DateTime) : Bool :=
  natLexLe a.fields b.fields

theorem DateTime.le_refl (a : DateTime) : DateTime.le a a = true :=
  natLexLe_refl a.fields

theorem DateTime.le_of_eq {a b : DateTime} (h : a = b) : DateTime.le a b = true := by
  subst h; exact DateTime.le_refl a

theorem DateTime.le_trans {a b c : DateTime}
    (hab : DateTime.le a b = true) (hbc : DateTime.le b c = true) :
    DateTime.le a c = true :=
  natLexLe_trans hab hbc

theorem DateTime.le_total (a b : DateTime) :
    (DateTime.le a b || DateTime.le b a) = true :=
  natLexLe_total a.fields b.fields

/-- Civil calendar date from a count of days since 1970-01-01
(Howard Hinnant's `civil_from_days` algorithm, over mathematical
integers). -/
def civilFromDays (z0 : Int) : Nat × Nat × Nat :=
  let z := z0 + 719468
  let era := z.ediv 146097
  let doe := (z.emod 146097).toNat
  let yoe := (doe - doe / 1460 + doe / 36524 - doe / 146096) / 365
  let y : Int := (yoe : Int) + era * 400
  let doy := doe - (365 * yoe + yoe / 4 - yoe / 100)
  let mp := (5 * doy + 2) / 153
  let d := doy - (153 * mp + 2) / 5 + 1
  let m := if mp < 10 then mp + 3 else mp - 9
  ((if m ≤ 2 then y + 1 else y).toNat, m, d)

/-- Day count since 1970-01-01 of a civil date (Howard Hinnant's
`days_from_civil`). -/
def daysFromCivil (y0 m d : Nat) : Int :=
  let y : Int := if m ≤ 2 then (y0 : Int) - 1 else (y0 : Int)
  let era := y.ediv 400
  let yoe := (y.emod 400).toNat
  let mp := if 2 < m then m - 3 else m + 9
  let doy := (153 * mp + 2) / 5 + d - 1
  let doe := yoe * 365 + yoe / 4 - yoe / 100 + doy
  era * 146097 + (doe : Int) - 719468

/-- Models the Python standard library `datetime.datetime.fromtimestamp`
applied to `usec / 1000000.0` (the timezone is taken to be UTC). -/
def datetimeFromUsec (usec : Int) : DateTime :=
  let totalSeconds := usec.ediv 1000000
  let micro := (usec.emod 1000000).toNat
  let days := totalSeconds.ediv 86400
  let sod := (totalSeconds.emod 86400).toNat
  let ymd := civilFromDays days
  { year := ymd.1, month := ymd.2.1, day := ymd.2.2,
    hour := sod / 3600, minute := sod % 3600 / 60, second := sod % 60,
    microsecond := micro }

/-- Abbreviated weekday names as produced by `strftime("%a")` in the C
locale, Monday first. -/
def weekdayNames : List String := ["Mon", "Tue", "Wed", "Thu", "Fri", "Sat", "Sun"]

/-- Index (Monday = 0) of the weekday of a civil date; 1970-01-01 was a
Thursday. -/
def weekdayIdx (y m d : Nat) : Nat :=
  (((daysFromCivil y m d).emod 7 + 3).emod 7).toNat

/-- Zero-padded two-digit decimal (`strftime` `%m`, `%d`, `%H`, `%M`). -/
def pad2 (n : Nat) : String :=
  if n < 10 then "0" ++ toString n else toString n

/-- Zero-padded four-digit decimal (`strftime` `%Y`). -/
def pad4 (n : Nat) : String :=
  if n < 10 then "000" ++ toString n
  else if n < 100 then "00" ++ toString n
  else if n < 1000 then "0" ++ toString n
  else toString n

/-- The metadata block produced by
`self.date.strftime(":PROPERTIES:\n:CREATED:  [%Y-%m-%d %a %H:%M]\n:END:")`. -/
def formatCreated (d : DateTime) : String :=
  ":PROPERTIES:\n:CREATED:  [" ++ pad4 d.year ++ "-" ++ pad2 d.month ++ "-"
    ++ pad2 d.day ++ " " ++ weekdayNames.getD (weekdayIdx d.year d.month d.day) ""
    ++ " " ++ pad2 d.hour ++ ":" ++ pad2 d.minute ++ "]\n:END:"

/-! ## `tagsToOrgString` -/

/-- Translation of `tagsToOrgString` (src/keepToOrgJson.py lines 30-38). -/
def tagsToOrgString (tags : List String) : String :=
  if tags.length = 0 then ""
  else tags.foldl (fun tagString tag => tagString ++ tag ++ ":") ":"

/-! ## The `Note` class -/

/-- Translation of the `Note` class (src/keepToOrgJson.py lines 41-49).
The default field values are exactly those set by `Note.__init__`; in
particular the default date is the Jan 1, 2000 sentinel. -/
structure Note where
  title : String := ""
  body : String := ""
  tags : List String := []
  archived : Bool := false
  date : DateTime := { year := 2000, month := 1, day := 1,
                       hour := 0, minute := 0, second := 0, microsecond := 0 }
  images : List String := []
deriving DecidableEq, Repr

/-- The in-place unescaping of `self.tags` performed inside `toOrgString`
(src/keepToOrgJson.py lines 80-81). -/
def Note.unescapedTags (note : Note) : List String :=
  note.tags.map htmlUnescape

/-- The body-normalisation pipeline of `Note.toOrgString`
(src/keepToOrgJson.py lines 54-93): checkbox markup conversion, literal
removal of wrapper fragments, the empty-checkbox-line fix, HTML
unescaping, stripping of the note's own `#tag` occurrences, whitespace
strip, and concatenation of the image links (with no separator before
the first link). -/
def Note.normalizedBody (note : Note) : String :=
  let body := note.body
  let body := pyReplace body
    "<li class=\"listitem\"><span class=\"bullet\">&#9744;</span>\n" "- [ ] "
  let body := pyReplace body
    "<li class=\"listitem checked\"><span class=\"bullet\">&#9745;</span>" "- [X] "
  let body :=
    ["<span class=\"text\">", "</span>", "</li>", "<ul class=\"list\">", "</ul>"].foldl
      (fun b t => pyReplace b t "") body
  let body :=
    ["- [ ] \n", "- [X] \n"].foldl
      (fun b t => pyReplace b t (String.mk t.data.dropLast)) body
  let body := htmlUnescape body
  let body := note.unescapedTags.foldl (fun b tag => pyReplace b ("#" ++ tag) "") body
  let imageLinks := note.images.map (fun place => "[[file:" ++ place ++ "]]")
  let body := pyStrip body
  body ++ pyJoin "\n" imageLinks

/-- The title-derivation step of `Note.toOrgString`
(src/keepToOrgJson.py lines 96-107): given the unescaped title and the
normalised body, produce the pair (orgTitle, final body). -/
def deriveTitle (title body : String) : String × String :=
  if title = "" then
    match pyFindChar '\n' body.data with
    | some i => (String.mk (body.data.take i), String.mk (body.data.drop (i + 1)))
    | none => (body, "")
  else (title, body)

/-- Translation of `Note.toOrgString` (src/keepToOrgJson.py lines 51-127).
The method mutates `self.tags` (unescaping each tag in place); the
embedding returns the rendered string together with the updated note. -/
def Note.toOrgString (note : Note) : String × Note :=
  let tags := note.unescapedTags
  let tb := deriveTitle (htmlUnescape note.title) note.normalizedBody
  let orgTitle := tb.1
  let body := tb.2
  let nesting := if note.archived then "*" else ""
  let created := formatCreated note.date
  let rendered :=
    if body ≠ "" ∨ tags ≠ [] then
      if body ≠ "" ∧ tags = [] then
        "*" ++ nesting ++ " " ++ orgTitle ++ "\n" ++ created ++ "\n" ++ body
      else if body = "" ∧ tags ≠ [] then
        "*" ++ nesting ++ " " ++ orgTitle ++ " " ++ tagsToOrgString tags
          ++ "\n" ++ created ++ "\n"
      else
        "*" ++ nesting ++ " " ++ orgTitle ++ " " ++ body ++ "\n"
          ++ tagsToOrgString tags ++ "\n" ++ created ++ "\n"
    else
      "*" ++ nesting ++ " " ++ orgTitle ++ "\n" ++ created
  (rendered, { note with tags := tags })

/-! ## `makeSafeFilename` and output file names -/

/-- Translation of `makeSafeFilename` (src/keepToOrgJson.py lines 151-154). -/
def makeSafeFilename (strToPurify : String) : String :=
  pyReplace (pyReplace strToPurify "/" "") "." ""

/-- The output file name `"{}/{}.org".format(outputDir, makeSafeFilename(tag))`
(src/keepToOrgJson.py line 218). -/
def outFileName (outputDir tag : String) : String :=
  outputDir ++ "/" ++ makeSafeFilename tag ++ ".org"

/-! ## The parsing section of `main`

One JSON note record, as consumed by `main` (src/keepToOrgJson.py lines
162-200).  A field that may be absent from the JSON object is an
`Option`; `none` means the key is missing.  `listContent` holds the
`text` of each item, `attachments` the `filePath` of each attachment. -/

structure Record where
  isArchived : Option Bool := none
  isTrashed : Option Bool := none
  createdTimestampUsec : Option Int := none
  title : Option String := none
  textContent : Option String := none
  listContent : Option (List String) := none
  attachments : Option (List String) := none
deriving DecidableEq, Repr

/-- The ways the per-record parsing section of `main` can raise:
`keyError k` models a Python `KeyError` on subscripting a missing key
`k`, `malformedNote` the explicit
`raise Exception("No textContent or listContent in note")`. -/
inductive ParseError where
  | keyError (key : String)
  | malformedNote
deriving DecidableEq, Repr

/-- Translation of the note-construction part of `main`
(src/keepToOrgJson.py lines 170-200): build a `Note` from one record.
Subscripting (`meta_data["k"]`) a missing key raises; `in`-guarded fields
do not.  Note that `meta_data["isTrashed"]` is only evaluated when
`meta_data["isArchived"]` is falsy (short-circuit `or`), that the note's
tag list is never assigned, and that the date is assigned
unconditionally from `meta_data["createdTimestampUsec"]`.  The actual
copying of attachment files is I/O outside the model; the recording of
`attachment["filePath"]` into `note.images` is kept. -/
def parseNote (r : Record) : Except ParseError Note :=
  match r.isArchived with
  | none => .error (.keyError "isArchived")
  | some ia =>
    let archivedE : Except ParseError Bool :=
      if ia then .ok true
      else match r.isTrashed with
        | none => .error (.keyError "isTrashed")
        | some it => .ok it
    match archivedE with
    | .error e => .error e
    | .ok archived =>
      match r.createdTimestampUsec with
      | none => .error (.keyError "createdTimestampUsec")
      | some usec =>
        match r.title with
        | none => .error (.keyError "title")
        | some t =>
          let bodyE : Except ParseError String :=
            match r.textContent with
            | some txt => .ok txt
            | none =>
              match r.listContent with
              | some items => .ok ("List:\n" ++ pyJoin "\n" items)
              | none => .error .malformedNote
          match bodyE with
          | .error e => .error e
          | .ok body =>
            .ok { title := t, body := body, tags := [],
                  archived := archived, date := datetimeFromUsec usec,
                  images := r.attachments.getD [] }

/-! ## The grouping section of `main`

`noteGroups` is a Python `dict` mapping a tag string to the list of its
notes; a `dict` preserves insertion order, so it is embedded as an
insertion-ordered association list. -/

/-- `noteGroups[tag].append(note)` with lazy creation
(src/keepToOrgJson.py lines 203-213, both the tag case and the
"Untagged" case follow this shape). -/
def addNoteToGroup : List (String × List Note) → String → Note → List (String × List Note)
  | [], tag, note => [(tag, [note])]
  | (k, ns) :: rest, tag, note =>
    if k = tag then (k, ns ++ [note]) :: rest
    else (k, ns) :: addNoteToGroup rest tag note

/-- The group lookup: the notes currently held by group `tag` (empty when
the group does not exist yet). -/
def lookupGroup : List (String × List Note) → String → List Note
  | [], _ => []
  | (k, ns) :: rest, tag => if k = tag then ns else lookupGroup rest tag

/-- Translation of the group-assignment block of `main`
(src/keepToOrgJson.py lines 202-213): when `splitByTag` is set the note
is appended to the group of each of its tags; when the note has no tags
it is appended to the group `"Untagged"`. -/
def assignNote (splitByTag : Bool) (groups : List (String × List Note))
    (note : Note) : List (String × List Note) :=
  let groups :=
    if splitByTag then
      note.tags.foldl (fun gs tag => addNoteToGroup gs tag note) groups
    else groups
  if note.tags = [] then addNoteToGroup groups "Untagged" note else groups

/-- The per-record loop of `main` (src/keepToOrgJson.py lines 162-213):
parse each record in order and assign the note to its groups; the first
raised error aborts the whole run. -/
def buildGroups (splitByTag : Bool) :
    List Record → List (String × List Note) → Except ParseError (List (String × List Note))
  | [], groups => .ok groups
  | r :: rest, groups =>
    match parseNote r with
    | .error e => .error e
    | .ok note => buildGroups splitByTag rest (assignNote splitByTag groups note)

/-- `main`'s grouping stage applied from the initial empty `noteGroups`. -/
def runGroups (splitByTag : Bool) (records : List Record) :
    Except ParseError (List (String × List Note)) :=
  buildGroups splitByTag records []

/-! ## The rendering section of `main` -/

/-- The comparison used by `main`'s sort: the key function
`lambda note: note.date` orders notes by their `datetime`. -/
def noteLe (a b : Note) : Bool :=
  DateTime.le a.date b.date

/-- `main`'s sort of a group before rendering:
`sorted(group, key=lambda note: note.date)` (src/keepToOrgJson.py line
220).  Python's `sorted` is a stable sort; `List.mergeSort` is the
corresponding stable sort in Lean. -/
def sortNotesByDate (group : List Note) : List Note :=
  group.mergeSort noteLe

/-- The loop of `main` that renders each sorted note and partitions the
rendered blocks into active `lines` and `archivedLines`, in order
(src/keepToOrgJson.py lines 225-231). -/
def collectLines : List Note → List String × List String
  | [] => ([], [])
  | n :: rest =>
    let p := collectLines rest
    if n.archived then (p.1, ((n.toOrgString).1 ++ "\n") :: p.2)
    else (((n.toOrgString).1 ++ "\n") :: p.1, p.2)

/-- Translation of the per-group output computation of `main`
(src/keepToOrgJson.py lines 220-237): the list of lines written to the
group's output file. -/
def renderGroup (includeArchived : Bool) (group : List Note) : List String :=
  let p := collectLines (sortNotesByDate group)
  if p.2.length ≠ 0 ∧ includeArchived then ("* *Archived*\n" :: p.2) ++ p.1
  else p.1

/-! ## A rendering shape written from the spec's words (for claim C1),
and concrete example inputs used by witnesses and counterexamples -/

/-- A rendering of the both-present case that follows the spec's words
instead of the code: heading line with body text inline, tag string,
metadata block, then the body text a second time after the metadata
block. -/
def specRenderBothPresent (note : Note) : String :=
  let tb := deriveTitle (htmlUnescape note.title) note.normalizedBody
  let nesting := if note.archived then "*" else ""
  "*" ++ nesting ++ " " ++ tb.1 ++ " " ++ tb.2 ++ "\n"
    ++ tagsToOrgString note.unescapedTags ++ "\n"
    ++ formatCreated note.date ++ "\n" ++ tb.2 ++ "\n"

/-- A record with all metadata keys and flat text content. -/
def exRecordTextOnly : Record :=
  { isArchived := some false, isTrashed := some false,
    createdTimestampUsec := some 0, title := some "x", textContent := some "hi" }

/-- The note that `exRecordTextOnly` parses to. -/
def exNoteTextOnly : Note :=
  { title := "x", body := "hi",
    date := { year := 1970, month := 1, day := 1, hour := 0, minute := 0,
              second := 0, microsecond := 0 } }

/-- A record with all metadata keys except `createdTimestampUsec`. -/
def exRecordNoTimestamp : Record :=
  { isArchived := some false, isTrashed := some false,
    title := some "x", textContent := some "hi" }

/-- A record with all metadata keys but neither content field. -/
def exRecordNoContent : Record :=
  { isArchived := some false, isTrashed := some false,
    createdTimestampUsec := some 0, title := some "x" }

/-- A record carrying only `textContent` (every metadata key missing). -/
def exRecordOnlyText : Record := { textContent := some "hi" }

/-- An archived note, for the rendering-layout witness. -/
def exNoteArchived : Note := { title := "A", body := "a", archived := true }

/-- An active note, for the rendering-layout witness. -/
def exNoteActive : Note := { title := "B", body := "b" }

/-- A group holding one archived and one active note. -/
def exGroup : List Note := [exNoteArchived, exNoteActive]

/-! ## Supporting lemmas -/

theorem foldl_tag_append (tags : List String) :
    ∀ acc : String, tags ≠ [] →
      tags.foldl (fun tagString tag => tagString ++ tag ++ ":") acc
        = acc ++ pyJoin ":" tags ++ ":" := by
  induction tags with
  | nil => intro acc h; exact absurd rfl h
  | cons t ts ih =>
    intro acc _
    cases ts with
    | nil =>
      apply String.ext
      simp [pyJoin, String.data_append]
    | cons t2 ts2 =>
      rw [List.foldl_cons, ih (acc ++ t ++ ":") (by simp)]
      apply String.ext
      simp [pyJoin, String.data_append, List.append_assoc]

theorem pyJoin_colon_no_space (tags : List String)
    (h : ∀ t ∈ tags, ' ' ∉ t.data) : ' ' ∉ (pyJoin ":" tags).data := by
  induction tags with
  | nil => simp [pyJoin]
  | cons t ts ih =>
    cases ts with
    | nil =>
      simpa [pyJoin] using h t (by simp)
    | cons t2 ts2 =>
      have ht := h t (by simp)
      have hrest := ih (fun x hx => h x (by simp [hx]))
      simp only [pyJoin, String.data_append, List.mem_append]
      intro hmem
      rcases hmem with (hmem | hmem) | hmem
      · exact ht hmem
      · simp at hmem
      · exact hrest hmem

theorem pyFindChar_eq_none {c : Char} : ∀ {cs : List Char}, c ∉ cs →
    pyFindChar c cs = none
  | [], _ => rfl
  | x :: rest, h => by
    have hx : ¬x = c := fun hxc => h (by simp [hxc])
    have hrest : c ∉ rest := fun hc => h (by simp [hc])
    simp [pyFindChar, hx, pyFindChar_eq_none hrest]

theorem pyFindChar_spec {c : Char} : ∀ {cs : List Char}, c ∈ cs →
    ∃ i, pyFindChar c cs = some i ∧
      cs.take i = cs.takeWhile (fun x => x != c) ∧
      cs.drop (i + 1) = (cs.dropWhile (fun x => x != c)).drop 1
  | [], h => absurd h (List.not_mem_nil c)
  | x :: rest, h => by
    by_cases hx : x = c
    · subst hx
      refine ⟨0, by simp [pyFindChar], by simp [List.takeWhile_cons], ?_⟩
      simp [List.dropWhile_cons]
    · have hc : c ∈ rest := by
        rcases List.mem_cons.mp h with h1 | h1
        · exact absurd h1.symm hx
        · exact h1
      obtain ⟨i, hfind, htake, hdrop⟩ := pyFindChar_spec hc
      refine ⟨i + 1, by simp [pyFindChar, hx, hfind], ?_, ?_⟩
      · simp [List.takeWhile_cons, hx, htake]
      · simpa [List.dropWhile_cons, hx] using hdrop

theorem lookupGroup_add_self : ∀ (gs : List (String × List Note)) (t : String) (n : Note),
    lookupGroup (addNoteToGroup gs t n) t = lookupGroup gs t ++ [n]
  | [], t, n => by simp [addNoteToGroup, lookupGroup]
  | (k, ns) :: rest, t, n => by
    by_cases hk : k = t
    · simp [addNoteToGroup, lookupGroup, hk]
    · simp [addNoteToGroup, lookupGroup, hk, lookupGroup_add_self rest t n]

theorem lookupGroup_add_other : ∀ (gs : List (String × List Note)) (t t' : String)
    (n : Note), t' ≠ t → lookupGroup (addNoteToGroup gs t n) t' = lookupGroup gs t'
  | [], t, t', n, h => by
    have h' : ¬t = t' := fun hh => h hh.symm
    simp [addNoteToGroup, lookupGroup, h']
  | (k, ns) :: rest, t, t', n, h => by
    by_cases hk : k = t
    · subst hk
      have h' : ¬k = t' := fun hh => h (hh.symm.trans rfl)
      simp [addNoteToGroup, lookupGroup, h']
    · by_cases hk' : k = t'
      · simp [addNoteToGroup, lookupGroup, hk, hk', h]
      · simp [addNoteToGroup, lookupGroup, hk, hk', lookupGroup_add_other rest t t' n h]

theorem addNoteToGroup_fst : ∀ (gs : List (String × List Note)) (t : String) (n : Note),
    ∀ g ∈ addNoteToGroup gs t n, g.1 = t ∨ g.1 ∈ gs.map Prod.fst
  | [], t, n => by
    intro g hg
    simp only [addNoteToGroup, List.mem_singleton] at hg
    exact Or.inl (by rw [hg])
  | (k, ns) :: rest, t, n => by
    intro g hg
    by_cases hk : k = t
    · rw [addNoteToGroup, if_pos hk] at hg
      rcases List.mem_cons.mp hg with h | h
      · exact Or.inl (by rw [h, hk])
      · exact Or.inr (by
          simp only [List.map_cons, List.mem_cons]
          exact Or.inr (List.mem_map_of_mem Prod.fst h))
    · rw [addNoteToGroup, if_neg hk] at hg
      rcases List.mem_cons.mp hg with h | h
      · exact Or.inr (by simp [h])
      · rcases addNoteToGroup_fst rest t n g h with h2 | h2
        · exact Or.inl h2
        · exact Or.inr (by
            simp only [List.map_cons, List.mem_cons]
            exact Or.inr h2)

theorem mem_lookup_foldl_preserve (n : Note) : ∀ (tags : List String)
    (gs : List (String × List Note)) (t : String), n ∈ lookupGroup gs t →
    n ∈ lookupGroup (tags.foldl (fun a b => addNoteToGroup a b n) gs) t
  | [], gs, t, h => h
  | t0 :: ts, gs, t, h => by
    rw [List.foldl_cons]
    apply mem_lookup_foldl_preserve n ts
    by_cases ht0 : t = t0
    · subst ht0
      rw [lookupGroup_add_self]
      exact List.mem_append_left _ h
    · rwa [lookupGroup_add_other gs t0 t n ht0]

theorem mem_lookup_foldl_of_mem (n : Note) : ∀ (tags : List String)
    (gs : List (String × List Note)) (t : String), t ∈ tags →
    n ∈ lookupGroup (tags.foldl (fun a b => addNoteToGroup a b n) gs) t
  | [], _, _, h => absurd h (List.not_mem_nil _)
  | t0 :: ts, gs, t, h => by
    rw [List.foldl_cons]
    by_cases hts : t ∈ ts
    · exact mem_lookup_foldl_of_mem n ts _ t hts
    · have ht0 : t = t0 := by
        rcases List.mem_cons.mp h with h1 | h1
        · exact h1
        · exact absurd h1 hts
      subst ht0
      apply mem_lookup_foldl_preserve
      rw [lookupGroup_add_self]
      exact List.mem_append_right _ (by simp)

theorem noteLe_trans : ∀ (a b c : Note), noteLe a b → noteLe b c → noteLe a c :=
  fun _ _ _ hab hbc => DateTime.le_trans hab hbc

theorem noteLe_total : ∀ (a b : Note), (noteLe a b || noteLe b a) = true :=
  fun a b => DateTime.le_total a.date b.date

theorem collectLines_eq : ∀ (ns : List Note),
    collectLines ns
      = ((ns.filter (fun n => !n.archived)).map (fun n => (n.toOrgString).1 ++ "\n"),
         (ns.filter (fun n => n.archived)).map (fun n => (n.toOrgString).1 ++ "\n"))
  | [] => rfl
  | n :: rest => by
    cases hn : n.archived <;>
      simp [collectLines, collectLines_eq rest, List.filter_cons, hn]

theorem parseNote_tags_nil (r : Record) (n : Note) (h : parseNote r = .ok n) :
    n.tags = [] := by
  unfold parseNote at h
  repeat' split at h
  all_goals simp_all
  all_goals rw [← h]

theorem assignNote_fst_untagged (splitByTag : Bool) (gs : List (String × List Note))
    (n : Note) (hn : n.tags = []) (hgs : ∀ g ∈ gs, g.1 = "Untagged") :
    ∀ g ∈ assignNote splitByTag gs n, g.1 = "Untagged" := by
  intro g hg
  rw [assignNote, hn] at hg
  simp only [List.foldl_nil, if_pos rfl, ite_self] at hg
  rcases addNoteToGroup_fst gs "Untagged" n g hg with h | h
  · exact h
  · obtain ⟨g', hg', hfst⟩ := List.mem_map.mp h
    rw [← hfst]
    exact hgs g' hg'

theorem buildGroups_fst_untagged (splitByTag : Bool) : ∀ (rs : List Record)
    (gs res : List (String × List Note)), buildGroups splitByTag rs gs = .ok res →
    (∀ g ∈ gs, g.1 = "Untagged") → ∀ g ∈ res, g.1 = "Untagged"
  | [], gs, res, h, hgs => by
    simp only [buildGroups] at h
    injection h with h2
    rw [← h2]
    exact hgs
  | r :: rest, gs, res, h, hgs => by
    rw [buildGroups] at h
    split at h
    · exact absurd h (by simp)
    · rename_i n hn
      exact buildGroups_fst_untagged splitByTag rest _ res h
        (assignNote_fst_untagged splitByTag gs n (parseNote_tags_nil r n hn) hgs)

theorem buildGroups_error_of_parse_error (splitByTag : Bool) (r : Record)
    (e : ParseError) (hr : parseNote r = .error e) : ∀ (rs1 rs2 : List Record)
    (gs : List (String × List Note)),
    ∃ e2, buildGroups splitByTag (rs1 ++ r :: rs2) gs = .error e2
  | [], rs2, gs => by
    refine ⟨e, ?_⟩
    simp only [List.nil_append, buildGroups, hr]
  | r0 :: rest, rs2, gs => by
    rw [List.cons_append, buildGroups]
    cases h0 : parseNote r0 with
    | error e0 => exact ⟨e0, rfl⟩
    | ok n => exact buildGroups_error_of_parse_error splitByTag r e hr rest rs2 _

end KeepToOrg

namespace KeepToOrg

/-! ## Claim theorems -/

/-- C2: parsing never populates a note's tag list, so for every run every
group produced by the grouping stage — whatever the `splitByTag` flag —
is named `"Untagged"`, and the only output file name ever formed is
`<outputDir>/Untagged.org`. -/
theorem parsed_notes_untagged :
    (∀ (r : Record) (n : Note), parseNote r = .ok n → n.tags = []) ∧
    (∀ (splitByTag : Bool) (rs : List Record) (gs : List (String × List Note)),
      runGroups splitByTag rs = .ok gs →
      ∀ g ∈ gs, g.1 = "Untagged" ∧
        ∀ dir, outFileName dir g.1 = dir ++ "/" ++ "Untagged" ++ ".org") := by
  refine ⟨parseNote_tags_nil, ?_⟩
  intro splitByTag rs gs h g hg
  have hfst : g.1 = "Untagged" :=
    buildGroups_fst_untagged splitByTag rs [] gs h (by simp) g hg
  refine ⟨hfst, fun dir => ?_⟩
  rw [outFileName, hfst]
  have : makeSafeFilename "Untagged" = "Untagged" := by decide
  rw [this]

/-- Witness for C2: a concrete run over one record, with `splitByTag`
enabled, produces only the group `"Untagged"`. -/
theorem parsed_notes_untagged_witness :
    ("Untagged", [exNoteTextOnly]).1 = "Untagged" ∧
      ∀ dir, outFileName dir ("Untagged", [exNoteTextOnly]).1
        = dir ++ "/" ++ "Untagged" ++ ".org" :=
  parsed_notes_untagged.2 true [exRecordTextOnly] [("Untagged", [exNoteTextOnly])]
    (by rfl) ("Untagged", [exNoteTextOnly]) (by simp)

/-- C4 (the claim describes the intent; the code raises instead): on a
record that lacks the `createdTimestampUsec` key, the parsing section of
`main` raises a `KeyError` — it does not fall back to the sentinel date —
even though a freshly constructed `Note` carries the 2000-01-01 sentinel
precisely for that purpose. -/
theorem parse_missing_timestamp_raises :
    parseNote exRecordNoTimestamp
        = Except.error (ParseError.keyError "createdTimestampUsec") ∧
      ({} : Note).date = { year := 2000, month := 1, day := 1, hour := 0,
                           minute := 0, second := 0, microsecond := 0 } := by
  constructor
  · rfl
  · rfl

/-- C6 (amended): provided the metadata keys that the parser subscripts
unconditionally are present (`isArchived`, `isTrashed` when `isArchived`
is falsy, `createdTimestampUsec`, `title`), parsing a record raises an
error iff the record has neither `textContent` nor `listContent`, and
that error is the explicit malformed-note exception; any record whose
parse raises aborts the whole run, wherever it occurs.  (Without those
provisos the "only if" direction fails, see the counterexample.) -/
theorem parse_error_iff (r : Record) (ha : r.isArchived ≠ none)
    (htr : r.isArchived = some false → r.isTrashed ≠ none)
    (hc : r.createdTimestampUsec ≠ none) (hti : r.title ≠ none) :
    ((∃ e, parseNote r = .error e) ↔ r.textContent = none ∧ r.listContent = none) ∧
    (r.textContent = none ∧ r.listContent = none →
      parseNote r = .error ParseError.malformedNote) ∧
    (∀ (splitByTag : Bool) (rs1 rs2 : List Record) (gs : List (String × List Note)),
      (∃ e, parseNote r = .error e) →
      ∃ e2, buildGroups splitByTag (rs1 ++ r :: rs2) gs = .error e2) := by
  have hok : (r.textContent = none ∧ r.listContent = none →
      parseNote r = .error ParseError.malformedNote) ∧
      (¬(r.textContent = none ∧ r.listContent = none) →
        ∀ e, parseNote r ≠ .error e) := by
    cases hia : r.isArchived with
    | none => exact absurd hia ha
    | some ia =>
      cases ia with
      | true =>
        cases hcu : r.createdTimestampUsec with
        | none => exact absurd hcu hc
        | some usec =>
          cases htt : r.title with
          | none => exact absurd htt hti
          | some t =>
            cases htc : r.textContent with
            | some txt =>
              refine ⟨fun hcontra => by simp at hcontra, fun _ e => ?_⟩
              rw [parseNote, hia]
              simp [hcu, htt, htc]
            | none =>
              cases hlc : r.listContent with
              | some items =>
                refine ⟨fun hcontra => by simp at hcontra, fun _ e => ?_⟩
                rw [parseNote, hia]
                simp [hcu, htt, htc, hlc]
              | none =>
                refine ⟨fun _ => ?_, fun hcontra => absurd ⟨rfl, rfl⟩ hcontra⟩
                rw [parseNote, hia]
                simp [hcu, htt, htc, hlc]
      | false =>
        cases hit : r.isTrashed with
        | none => exact absurd hit (htr hia)
        | some it =>
          cases hcu : r.createdTimestampUsec with
          | none => exact absurd hcu hc
          | some usec =>
            cases htt : r.title with
            | none => exact absurd htt hti
            | some t =>
              cases htc : r.textContent with
              | some txt =>
                refine ⟨fun hcontra => by simp at hcontra, fun _ e => ?_⟩
                rw [parseNote, hia]
                simp [hit, hcu, htt, htc]
              | none =>
                cases hlc : r.listContent with
                | some items =>
                  refine ⟨fun hcontra => by simp at hcontra, fun _ e => ?_⟩
                  rw [parseNote, hia]
                  simp [hit, hcu, htt, htc, hlc]
                | none =>
                  refine ⟨fun _ => ?_, fun hcontra => absurd ⟨rfl, rfl⟩ hcontra⟩
                  rw [parseNote, hia]
                  simp [hit, hcu, htt, htc, hlc]
  refine ⟨⟨fun hex => ?_, fun hb => ⟨_, hok.1 hb⟩⟩, hok.1, ?_⟩
  · obtain ⟨e, he⟩ := hex
    by_contra hb
    exact hok.2 hb e he
  · intro splitByTag rs1 rs2 gs hex
    obtain ⟨e, he⟩ := hex
    exact buildGroups_error_of_parse_error splitByTag r e he rs1 rs2 gs

/-- Witness for the amended C6: a record carrying all metadata keys but
neither content field parses to the malformed-note error. -/
theorem parse_error_iff_witness :
    parseNote exRecordNoContent = Except.error ParseError.malformedNote :=
  (parse_error_iff exRecordNoContent
    (by decide) (fun _ => by decide) (by decide) (by decide)).2.1 ⟨rfl, rfl⟩

/-- C6 counterexample: the "error only if both content fields are absent"
direction fails as stated — a record that has `textContent` but lacks the
`isArchived` key still raises (a `KeyError`). -/
theorem parse_error_other_keys_cex :
    parseNote exRecordOnlyText = Except.error (ParseError.keyError "isArchived") ∧
      exRecordOnlyText.textContent ≠ none := by
  constructor
  · rfl
  · decide

/-- C3 (amended): when `splitByTag` is enabled, a note is assigned to
every group named by one of its tags; when it is disabled, a tagged note
is assigned to no group at all; and a note with no tags is assigned,
regardless of the flag, to exactly the group `"Untagged"`: that group
gains the note and every other group is unchanged. -/
theorem grouping_spec (note : Note) (groups : List (String × List Note)) :
    (∀ tag ∈ note.tags, note ∈ lookupGroup (assignNote true groups note) tag) ∧
    (note.tags ≠ [] → assignNote false groups note = groups) ∧
    (note.tags = [] → ∀ b : Bool,
      lookupGroup (assignNote b groups note) "Untagged"
          = lookupGroup groups "Untagged" ++ [note] ∧
        ∀ t, t ≠ "Untagged" →
          lookupGroup (assignNote b groups note) t = lookupGroup groups t) := by
  refine ⟨?_, ?_, ?_⟩
  · intro tag htag
    have hne : note.tags ≠ [] := List.ne_nil_of_mem htag
    rw [assignNote]
    simp only [if_pos rfl, if_neg hne]
    exact mem_lookup_foldl_of_mem note note.tags groups tag htag
  · intro hne
    rw [assignNote]
    simp [hne]
  · intro hnil b
    rw [assignNote, hnil]
    constructor
    · cases b <;> simp [lookupGroup_add_self]
    · intro t ht
      cases b <;> simp [lookupGroup_add_other _ _ _ _ ht]

/-- Witness for the amended C3: with `splitByTag` on, a note tagged
`["home","todo"]` lands in both groups; an untagged note lands in
`"Untagged"` and leaves the group `"home"` unchanged. -/
theorem grouping_spec_witness :
    ({ tags := ["home", "todo"] : Note }
        ∈ lookupGroup (assignNote true [] { tags := ["home", "todo"] }) "home") ∧
      (lookupGroup (assignNote false [] ({} : Note)) "Untagged"
        = lookupGroup [] "Untagged" ++ [({} : Note)]) :=
  ⟨(grouping_spec { tags := ["home", "todo"] } []).1 "home" (by decide),
   ((grouping_spec ({} : Note) []).2.2 rfl false).1⟩

/-- C3 counterexample: the claim omits the `splitByTag` guard.  With
`splitByTag` disabled, a note tagged `["home"]` is assigned to no group
at all — in particular not to the group named by its tag. -/
theorem grouping_untagged_only_cex :
    "home" ∈ ({ tags := ["home"] : Note }).tags ∧
      assignNote false [] { tags := ["home"] } = [] := by
  constructor
  · decide
  · decide

/-- C9: for a note whose parsed title is empty after unescaping, title
derivation on the normalised body yields: if the body contains a line
break, the first line as the title and the remainder after the break as
the body; otherwise the whole body as the title and an empty body. -/
theorem deriveTitle_empty_title (note : Note)
    (h : htmlUnescape note.title = "") :
    ('\n' ∈ note.normalizedBody.data →
      deriveTitle (htmlUnescape note.title) note.normalizedBody
        = (String.mk (note.normalizedBody.data.takeWhile (fun c => c != '\n')),
           String.mk ((note.normalizedBody.data.dropWhile (fun c => c != '\n')).drop 1))) ∧
    ('\n' ∉ note.normalizedBody.data →
      deriveTitle (htmlUnescape note.title) note.normalizedBody
        = (note.normalizedBody, "")) := by
  constructor
  · intro hmem
    obtain ⟨i, hfind, htake, hdrop⟩ := pyFindChar_spec hmem
    rw [deriveTitle, if_pos h, hfind]
    dsimp only
    rw [htake, hdrop]
  · intro hmem
    rw [deriveTitle, if_pos h, pyFindChar_eq_none hmem]

/-- Witness for C9: on the empty-titled note with body `"first\nrest"`,
the derived title is `"first"` and the remaining body is `"rest"`. -/
theorem deriveTitle_empty_title_witness :
    deriveTitle (htmlUnescape (Note.title { title := "", body := "first\nrest" }))
        (Note.normalizedBody { title := "", body := "first\nrest" })
      = (String.mk ((Note.normalizedBody
            { title := "", body := "first\nrest" }).data.takeWhile (fun c => c != '\n')),
         String.mk (((Note.normalizedBody
            { title := "", body := "first\nrest" }).data.dropWhile (fun c => c != '\n')).drop 1)) :=
  (deriveTitle_empty_title { title := "", body := "first\nrest" } (by decide)).1 (by decide)

/-- C10: for every list of tags, the rendered tag string is empty when the
list is empty, and otherwise is the colon-delimited run with a leading
colon, a trailing colon, a colon between adjacent tags (each tag exactly
once, in order), and no spaces beyond those occurring inside tag text. -/
theorem tagsToOrgString_spec (tags : List String) :
    (tags = [] → tagsToOrgString tags = "") ∧
    (tags ≠ [] → tagsToOrgString tags = ":" ++ pyJoin ":" tags ++ ":") ∧
    ((∀ t ∈ tags, ' ' ∉ t.data) → ' ' ∉ (tagsToOrgString tags).data) := by
  refine ⟨fun h => by simp [h, tagsToOrgString], fun h => ?_, fun h => ?_⟩
  · rw [tagsToOrgString, if_neg (by simpa using h)]
    exact foldl_tag_append tags ":" h
  · by_cases hnil : tags = []
    · simp [hnil, tagsToOrgString]
    · rw [tagsToOrgString, if_neg (by simpa using hnil), foldl_tag_append tags ":" hnil]
      have := pyJoin_colon_no_space tags h
      simp only [String.data_append, List.mem_append]
      intro hmem
      rcases hmem with (hmem | hmem) | hmem
      · revert hmem; decide
      · exact this hmem
      · revert hmem; decide

/-- Witness for C10 at the spec's own example: the tags `["home","todo"]`
render as `":home:todo:"`, which contains no space. -/
theorem tagsToOrgString_spec_witness :
    tagsToOrgString ["home", "todo"] = ":home:todo:" ∧
      ' ' ∉ (tagsToOrgString ["home", "todo"]).data :=
  ⟨((tagsToOrgString_spec ["home", "todo"]).2.1 (by decide)).trans (by decide),
   (tagsToOrgString_spec ["home", "todo"]).2.2 (by decide)⟩

/-- C1 (amended): when both the final body text and the tag list are
non-empty, the rendered outline entry is the heading line with the body
text inline, then the tag string, then the metadata block — and nothing
after the metadata block. -/
theorem toOrgString_both_present (note : Note)
    (hb : (deriveTitle (htmlUnescape note.title) note.normalizedBody).2 ≠ "")
    (ht : note.unescapedTags ≠ []) :
    (note.toOrgString).1 =
      "*" ++ (if note.archived then "*" else "") ++ " "
        ++ (deriveTitle (htmlUnescape note.title) note.normalizedBody).1 ++ " "
        ++ (deriveTitle (htmlUnescape note.title) note.normalizedBody).2 ++ "\n"
        ++ tagsToOrgString note.unescapedTags ++ "\n"
        ++ formatCreated note.date ++ "\n" := by
  simp [Note.toOrgString, hb, ht]

/-- Witness for the amended C1 on a concrete note with body and tags both
present. -/
theorem toOrgString_both_present_witness :
    (Note.toOrgString { title := "T", body := "XYZZY", tags := ["t"] }).1 =
      "*" ++ (if ({ title := "T", body := "XYZZY", tags := ["t"] : Note }).archived
                then "*" else "") ++ " "
        ++ (deriveTitle (htmlUnescape "T")
              (Note.normalizedBody { title := "T", body := "XYZZY", tags := ["t"] })).1 ++ " "
        ++ (deriveTitle (htmlUnescape "T")
              (Note.normalizedBody { title := "T", body := "XYZZY", tags := ["t"] })).2 ++ "\n"
        ++ tagsToOrgString (Note.unescapedTags { title := "T", body := "XYZZY", tags := ["t"] })
        ++ "\n" ++ formatCreated ({ title := "T", body := "XYZZY", tags := ["t"] : Note }).date
        ++ "\n" :=
  toOrgString_both_present { title := "T", body := "XYZZY", tags := ["t"] }
    (by decide) (by decide)

/-- C1 counterexample: on a note whose normalised body (`"XYZZY"`) and tag
list (`["t"]`) are both non-empty, the program's rendered entry is not the
spec's claimed shape: the body text appears only inline on the heading
line, and nothing follows the metadata block. -/
theorem toOrgString_body_not_repeated_cex :
    (Note.toOrgString { title := "T", body := "XYZZY", tags := ["t"] }).1
        ≠ specRenderBothPresent { title := "T", body := "XYZZY", tags := ["t"] } ∧
      (Note.toOrgString { title := "T", body := "XYZZY", tags := ["t"] }).1
        = "* T XYZZY\n:t:\n:PROPERTIES:\n:CREATED:  [2000-01-01 Sat 00:00]\n:END:\n" := by
  constructor
  · decide
  · decide

/-- C7: for a group containing at least one archived note, rendering with
archived notes included begins with the single literal header line
`"* *Archived*"`, followed by all archived-note blocks, followed by all
active-note blocks (each partition in sorted order); rendering with
archived notes excluded yields exactly the active-note blocks. -/
theorem renderGroup_archived_layout (group : List Note)
    (h : ∃ n ∈ group, n.archived = true) :
    renderGroup true group =
      "* *Archived*\n"
        :: ((sortNotesByDate group).filter (fun n => n.archived)).map
              (fun n => (n.toOrgString).1 ++ "\n")
        ++ ((sortNotesByDate group).filter (fun n => !n.archived)).map
              (fun n => (n.toOrgString).1 ++ "\n") ∧
    renderGroup false group =
      ((sortNotesByDate group).filter (fun n => !n.archived)).map
        (fun n => (n.toOrgString).1 ++ "\n") := by
  obtain ⟨n, hng, hna⟩ := h
  have hmem : n ∈ sortNotesByDate group := by
    rw [sortNotesByDate]
    exact List.mem_mergeSort.mpr hng
  have hfil : n ∈ (sortNotesByDate group).filter (fun n => n.archived) :=
    List.mem_filter.mpr ⟨hmem, hna⟩
  have hlen : (((sortNotesByDate group).filter (fun n => n.archived)).map
      (fun n => (n.toOrgString).1 ++ "\n")).length ≠ 0 := by
    simp only [List.length_map, ne_eq, List.length_eq_zero]
    intro h0
    rw [h0] at hfil
    exact absurd hfil (List.not_mem_nil n)
  constructor
  · simp only [renderGroup, collectLines_eq]
    rw [if_pos ⟨hlen, trivial⟩]
  · simp only [renderGroup, collectLines_eq]
    rw [if_neg (by simp)]

/-- Witness for C7 on a concrete group holding one archived and one
active note. -/
theorem renderGroup_archived_layout_witness :
    renderGroup true exGroup =
      "* *Archived*\n"
        :: ((sortNotesByDate exGroup).filter (fun n => n.archived)).map
              (fun n => (n.toOrgString).1 ++ "\n")
        ++ ((sortNotesByDate exGroup).filter (fun n => !n.archived)).map
              (fun n => (n.toOrgString).1 ++ "\n") ∧
    renderGroup false exGroup =
      ((sortNotesByDate exGroup).filter (fun n => !n.archived)).map
        (fun n => (n.toOrgString).1 ++ "\n") :=
  renderGroup_archived_layout exGroup ⟨exNoteArchived, by decide, rfl⟩

/-- C8: within each group the notes are sorted ascending by timestamp
before rendering; the sort is stable — for every timestamp the notes
carrying it appear in the output in their input order — and consequently
both the archived and the active rendered partitions are non-decreasing
by timestamp. -/
theorem sortNotesByDate_sorted_stable (group : List Note) :
    (sortNotesByDate group).Pairwise (fun a b => noteLe a b = true) ∧
    (∀ t : DateTime, (sortNotesByDate group).filter (fun n => decide (n.date = t))
        = group.filter (fun n => decide (n.date = t))) ∧
    ((sortNotesByDate group).filter (fun n => n.archived)).Pairwise
      (fun a b => noteLe a b = true) ∧
    ((sortNotesByDate group).filter (fun n => !n.archived)).Pairwise
      (fun a b => noteLe a b = true) := by
  have hsorted : (sortNotesByDate group).Pairwise (fun a b => noteLe a b = true) := by
    rw [sortNotesByDate]
    exact List.sorted_mergeSort noteLe_trans noteLe_total group
  refine ⟨hsorted, ?_, ?_, ?_⟩
  · intro t
    have hall : ∀ x ∈ group.filter (fun n => decide (n.date = t)), x.date = t := by
      intro x hx
      simpa using (List.mem_filter.mp hx).2
    have hpair : (group.filter (fun n => decide (n.date = t))).Pairwise
        (fun a b => noteLe a b = true) := by
      apply List.pairwise_of_forall_mem_list
      intro a ha b hb
      have hd : a.date = b.date := by rw [hall a ha, hall b hb]
      show DateTime.le a.date b.date = true
      exact DateTime.le_of_eq hd
    have hsub : List.Sublist (group.filter (fun n => decide (n.date = t)))
        (sortNotesByDate group) := by
      rw [sortNotesByDate]
      exact List.sublist_mergeSort noteLe_trans noteLe_total hpair
        (List.filter_sublist group)
    have hself : (group.filter (fun n => decide (n.date = t))).filter
        (fun n => decide (n.date = t)) = group.filter (fun n => decide (n.date = t)) :=
      List.filter_eq_self.mpr (fun a ha => (List.mem_filter.mp ha).2)
    have hsubf : List.Sublist (group.filter (fun n => decide (n.date = t)))
        ((sortNotesByDate group).filter (fun n => decide (n.date = t))) := by
      have h2 := hsub.filter (fun n => decide (n.date = t))
      rwa [hself] at h2
    have hperm : List.Perm ((sortNotesByDate group).filter (fun n => decide (n.date = t)))
        (group.filter (fun n => decide (n.date = t))) := by
      rw [sortNotesByDate]
      exact (List.mergeSort_perm group noteLe).filter _
    exact (hsubf.eq_of_length (hperm.length_eq.symm)).symm
  · exact List.Pairwise.sublist (List.filter_sublist _) hsorted
  · exact List.Pairwise.sublist (List.filter_sublist _) hsorted

/-- C5 (amended): rendering a note to its outline entry leaves every field
unchanged except the tag list, which is replaced in place by its
HTML-unescaped form. -/
theorem toOrgString_mutates_only_tags (note : Note) :
    (note.toOrgString).2 = { note with tags := note.tags.map htmlUnescape } :=
  rfl

/-- C5 counterexample: the claim that no field of the note is modified
after grouping, including by rendering, fails: on a note carrying the tag
`"&amp;"`, rendering replaces the tag list by `["&"]`. -/
theorem toOrgString_frame_cex :
    (Note.toOrgString { title := "t", body := "b", tags := ["&amp;"] }).2
        ≠ { title := "t", body := "b", tags := ["&amp;"] } ∧
      (Note.toOrgString { title := "t", body := "b", tags := ["&amp;"] }).2.tags
        = ["&"] := by
  constructor
  · decide
  · decide

end KeepToOrg
